import Mathlib

/-!
Verification of the postcard-lister pipeline specification against a shallow
embedding of the repository's core modules:

* `core/multi_llm_analyzer.py` — category mapping and consensus building,
* `core/image_processor.py`    — image variant geometry,
* `core/vision_handler.py`     — LLM response parsing,
* `core/csv_generator.py`      — CSV row construction.

Python strings are modelled as Lean `String` with ASCII-level operations
re-implemented over `List Char` so every definition is kernel-executable;
Python dicts are modelled as insertion-ordered association lists
(`List (String × α)`), matching CPython's documented dict-ordering
semantics; Python floats used as confidences are modelled as `ℚ`.
-/

set_option maxHeartbeats 1000000

namespace PostcardLister

/-! ## Python string primitives -/

/-- Whitespace characters removed by Python's `str.strip()` (the ASCII subset
that can occur in the modelled strings). -/
def isPyWs (c : Char) : Bool :=
  (c == ' ') || (c == '\n') || (c == '\t') || (c == '\r')

/-- Python `str.strip()`. -/
def pyStrip (s : List Char) : List Char :=
  ((s.dropWhile isPyWs).reverse.dropWhile isPyWs).reverse

/-- Does the second list start with the first (Python `str.startswith`)? -/
def hasPre : List Char → List Char → Bool
  | [], _ => true
  | _ :: _, [] => false
  | p :: ps, c :: cs => (p == c) && hasPre ps cs

/-- Is `pat` a contiguous sublist of the second argument (Python `in`)? -/
def hasSub (pat : List Char) : List Char → Bool
  | [] => pat.isEmpty
  | c :: cs => hasPre pat (c :: cs) || hasSub pat cs

/-- Python's containment test `needle in hay` on strings. -/
def inPy (needle hay : String) : Bool :=
  hasSub needle.data hay.data

/-- Python `str.lower()` (ASCII; all strings in the mapping table are ASCII). -/
def lowerStr (s : String) : String :=
  String.mk (s.data.map Char.toLower)

/-- Split at the first occurrence of `pat`, returning the part before it and
the part after it; `none` when `pat` does not occur. -/
def splitAtSub (pat : List Char) : List Char → Option (List Char × List Char)
  | [] => if pat.isEmpty then some ([], []) else none
  | c :: cs =>
    if hasPre pat (c :: cs) then some ([], (c :: cs).drop pat.length)
    else (splitAtSub pat cs).map (fun p => (c :: p.1, p.2))

/-- Python `s.split(pat)[1]` for a string in which `pat` occurs at least once:
the text between the first occurrence of `pat` and the following occurrence
(or the rest of the string when there is no second occurrence). -/
def splitSecondField (pat s : List Char) : List Char :=
  match splitAtSub pat s with
  | none => []
  | some (_, rest) =>
    match splitAtSub pat rest with
    | none => rest
    | some (pre, _) => pre

/-- The character `{` (written via its code point). -/
def braceOpen : Char := Char.ofNat 123

/-- The character `}` (written via its code point). -/
def braceClose : Char := Char.ofNat 125

/-! ## Category mapping database (`CATEGORY_MAPPINGS`) -/

/-- One subcategory entry of `CATEGORY_MAPPINGS`. -/
structure SubcatInfo where
  id : String
  keywords : List String
deriving DecidableEq, Repr

/-- One category entry of `CATEGORY_MAPPINGS`. -/
structure CategoryInfo where
  ebay_category_id : String
  keywords : List String
  subcategories : List (String × SubcatInfo)
deriving DecidableEq, Repr

/-- The static category table of `core/multi_llm_analyzer.py`, in its Python
insertion order (Solar Panel, Postcard, Electronics). -/
def CATEGORY_MAPPINGS : List (String × CategoryInfo) :=
  [ ("Solar Panel",
     { ebay_category_id := "11700",
       keywords := ["solar", "panel", "photovoltaic", "pv", "watt", "voltage"],
       subcategories :=
         [ ("Monocrystalline", { id := "11701", keywords := ["mono", "monocrystalline", "single crystal"] }),
           ("Polycrystalline", { id := "11702", keywords := ["poly", "polycrystalline", "multi crystal"] }),
           ("Flexible", { id := "11703", keywords := ["flexible", "bendable", "thin film"] }),
           ("Bifacial", { id := "11704", keywords := ["bifacial", "double sided", "dual face"] }) ] }),
    ("Postcard",
     { ebay_category_id := "10398",
       keywords := ["postcard", "vintage", "collectible", "greeting card"],
       subcategories :=
         [ ("Vintage", { id := "10399", keywords := ["vintage", "antique", "old"] }),
           ("Modern", { id := "10400", keywords := ["modern", "contemporary", "new"] }),
           ("Real Photo", { id := "10401", keywords := ["real photo", "rppc", "photograph"] }) ] }),
    ("Electronics",
     { ebay_category_id := "58058",
       keywords := ["electronic", "device", "circuit", "component"],
       subcategories :=
         [ ("Components", { id := "58059", keywords := ["component", "resistor", "capacitor"] }),
           ("Devices", { id := "58060", keywords := ["device", "gadget", "equipment"] }) ] }) ]

/-! ## Category mapper (`MultiLLMAnalyzer._map_to_category`) -/

/-- Score of one category against a detected product type, as computed by the
loop body of `_map_to_category`: `10` points when
`product_type.lower() in category.lower()` (the product type is a substring of
the category NAME), plus one point per category keyword that occurs as a
substring of the product type. -/
def categoryScore (product_type : String) (category : String) (info : CategoryInfo) : Nat :=
  (if inPy (lowerStr product_type) (lowerStr category) then 10 else 0)
    + (info.keywords.filter (fun kw => inPy (lowerStr kw) (lowerStr product_type))).length

/-- The `best_match` selection loop of `_map_to_category`: running
`(best_match, best_score)` state starting at `(None, 0)`, replaced only on a
strictly greater score. -/
def best_match (product_type : String) : Option String :=
  (CATEGORY_MAPPINGS.foldl
    (fun acc p =>
      if categoryScore product_type p.1 p.2 > acc.2
      then (some p.1, categoryScore product_type p.1 p.2)
      else acc)
    ((none : Option String), 0)).1

/-- The subcategory resolution loop of `_map_to_category`: when the detected
subcategory string is non-empty, the first subcategory having a keyword that
occurs as a substring of it wins; otherwise the id stays `""`. -/
def subcategoryIdFor (info : CategoryInfo) (subcategory : String) : String :=
  if subcategory == "" then ""
  else
    match info.subcategories.find?
        (fun sub => sub.2.keywords.any (fun kw => inPy (lowerStr kw) (lowerStr subcategory))) with
    | some sub => sub.2.id
    | none => ""

/-- Shallow embedding of `MultiLLMAnalyzer._map_to_category(product_type,
parsed_data)`: `parsed_data` is the parsed-response dict, of which only
`parsed_data.get("subcategory", "")` is read. Returns the pair
`(category_id, subcategory_id)`. -/
def map_to_category (product_type : String) (parsed_data : List (String × String)) : String × String :=
  let subcategory := (List.lookup "subcategory" parsed_data).getD ""
  match best_match product_type with
  | some cat =>
    match CATEGORY_MAPPINGS.find? (fun p => p.1 == cat) with
    | some p => (p.2.ebay_category_id, subcategoryIdFor p.2 subcategory)
    | none => ("", "")
  | none => ("", "")

/-- Scoring as the SPEC sentence describes it (direction of the 10-point
substring test reversed relative to the code): `10` points when the category
name appears as a substring of the detected product type. Used to compare the
spec's description with the code. -/
def specCategoryScore (product_type : String) (category : String) (info : CategoryInfo) : Nat :=
  (if inPy (lowerStr category) (lowerStr product_type) then 10 else 0)
    + (info.keywords.filter (fun kw => inPy (lowerStr kw) (lowerStr product_type))).length

/-- Best-match selection under the spec's scoring (same first-wins strict
improvement loop as the code, spec scoring substituted). -/
def specBestMatch (product_type : String) : Option String :=
  (CATEGORY_MAPPINGS.foldl
    (fun acc p =>
      if specCategoryScore product_type p.1 p.2 > acc.2
      then (some p.1, specCategoryScore product_type p.1 p.2)
      else acc)
    ((none : Option String), 0)).1

/-! ## Selection-loop lemmas

The Python pattern `best = None; best_score = 0; for x: if score(x) > best_score: ...`
is characterised as: the first element attaining the maximum score, provided
that maximum exceeds the initial threshold. -/

/-- Maximum of `f` over a list (0 for the empty list), matching the loop's
initial `best_score = 0`. -/
def maxL (f : α → Nat) (l : List α) : Nat :=
  (l.map f).foldr max 0

@[simp] theorem maxL_nil (f : α → Nat) : maxL f [] = 0 := rfl

@[simp] theorem maxL_cons (f : α → Nat) (x : α) (xs : List α) :
    maxL f (x :: xs) = max (f x) (maxL f xs) := rfl

/-- First element of the list whose score equals `m`. -/
def firstWith (f : α → Nat) (m : Nat) : List α → Option α
  | [] => none
  | x :: xs => if f x = m then some x else firstWith f m xs

theorem firstWith_mem {f : α → Nat} {m : Nat} :
    ∀ {l : List α} {x : α}, firstWith f m l = some x → x ∈ l := by
  intro l
  induction l with
  | nil => intro x h; simp [firstWith] at h
  | cons a as ih =>
    intro x h
    simp only [firstWith] at h
    by_cases ha : f a = m
    · rw [if_pos ha] at h
      cases h
      exact List.mem_cons_self a as
    · rw [if_neg ha] at h
      exact List.mem_cons_of_mem a (ih h)

/-- The strict-improvement selection loop, started at threshold `bs` with
incumbent `b`, selects `g` of the first element attaining the maximum score
when that maximum exceeds `bs`, and keeps the incumbent otherwise. -/
theorem foldl_selLoop (f : α → Nat) (g : α → β) (l : List α) :
    ∀ (b : Option β) (bs : Nat),
      l.foldl (fun acc p => if f p > acc.2 then (some (g p), f p) else acc) (b, bs)
        = if maxL f l > bs then ((firstWith f (maxL f l) l).map g, maxL f l) else (b, bs) := by
  induction l with
  | nil =>
    intro b bs
    simp
  | cons x xs ih =>
    intro b bs
    rw [List.foldl_cons]
    by_cases h1 : f x > bs
    · rw [if_pos h1, ih (some (g x)) (f x)]
      by_cases h2 : maxL f xs > f x
      · have hm : maxL f (x :: xs) = maxL f xs := by
          rw [maxL_cons]; omega
        rw [if_pos h2, if_pos (by omega), hm]
        simp only [firstWith]
        rw [if_neg (by omega)]
      · have hm : maxL f (x :: xs) = f x := by
          rw [maxL_cons]; omega
        rw [if_neg h2, if_pos (by omega), hm]
        simp [firstWith]
    · rw [if_neg h1, ih b bs]
      by_cases h2 : maxL f xs > bs
      · have hm : maxL f (x :: xs) = maxL f xs := by
          rw [maxL_cons]; omega
        rw [if_pos h2, if_pos (by omega), hm]
        simp only [firstWith]
        rw [if_neg (by omega)]
      · rw [if_neg h2, if_neg (by rw [maxL_cons]; omega)]

/-- Keyed `find?` on an association list with distinct keys returns a member
when queried with that member's key. -/
theorem find?_key_eq {β : Type} {l : List (String × β)} (hnd : (l.map Prod.fst).Nodup)
    {p : String × β} (hp : p ∈ l) : l.find? (fun q => q.1 == p.1) = some p := by
  induction l with
  | nil => cases hp
  | cons a as ih =>
    rcases List.mem_cons.mp hp with h | h
    · subst h
      simp [List.find?]
    · have hne : a.1 ≠ p.1 := by
        intro he
        have : p.1 ∈ as.map Prod.fst := List.mem_map_of_mem Prod.fst h
        rw [← he] at this
        exact (List.nodup_cons.mp hnd).1 this
      have : (a.1 == p.1) = false := beq_eq_false_iff_ne.mpr hne
      simp only [List.find?, this]
      exact ih (List.nodup_cons.mp hnd).2 h

/-! ## The category mapper, characterised -/

/-- Spec-shaped description of `_map_to_category`'s selection: the first
table category whose score (under the code's scoring) equals the maximum
score, or `none` when no category scores above zero. -/
def firstArgmax (pt : String) : Option (String × CategoryInfo) :=
  let f := fun p : String × CategoryInfo => categoryScore pt p.1 p.2
  if maxL f CATEGORY_MAPPINGS = 0 then none
  else firstWith f (maxL f CATEGORY_MAPPINGS) CATEGORY_MAPPINGS

theorem best_match_eq_firstArgmax (pt : String) :
    best_match pt = (firstArgmax pt).map Prod.fst := by
  unfold best_match firstArgmax
  rw [foldl_selLoop (fun p : String × CategoryInfo => categoryScore pt p.1 p.2) Prod.fst]
  by_cases h : maxL (fun p : String × CategoryInfo => categoryScore pt p.1 p.2) CATEGORY_MAPPINGS > 0
  · rw [if_pos h, if_neg (by omega)]
  · rw [if_neg h, if_pos (by omega)]
    simp

theorem firstArgmax_mem {pt : String} {p : String × CategoryInfo}
    (h : firstArgmax pt = some p) : p ∈ CATEGORY_MAPPINGS := by
  unfold firstArgmax at h
  by_cases h0 : maxL (fun p : String × CategoryInfo => categoryScore pt p.1 p.2) CATEGORY_MAPPINGS = 0
  · rw [if_pos h0] at h
    cases h
  · rw [if_neg h0] at h
    exact firstWith_mem h

/-- C1 (counterexample): the claim's scoring direction ("the category name
appears as a substring of the product type") is not the code's. For the
product type `"card"` every category scores zero under the claim's scoring
(so the claim demands empty category and subcategory ids), yet
`_map_to_category` awards Postcard the 10 direct-match points because
`"card" in "postcard"`, and returns `("10398", "")`. -/
theorem C1_scoring_direction_counterexample :
    specBestMatch "card" = none ∧
    map_to_category "card" [] = ("10398", "") ∧
    ("10398", "") ≠ (("" : String), ("" : String)) := by
  refine ⟨by decide, by decide, by decide⟩

/-- C1 (amended): for every detected product-type string, `_map_to_category`
scores each known category as 10 points if the PRODUCT TYPE appears as a
substring of the category name (case-insensitive) plus 1 point per keyword of
that category appearing as a substring of the product type; it returns the
`ebay_category_id` of the highest-scoring category, resolving ties to the
category iterated first in the static table, and returns empty-string
category id and subcategory id when no category scores above zero. -/
theorem C1_category_mapper_scoring_amended (pt : String) (pd : List (String × String)) :
    map_to_category pt pd =
      match firstArgmax pt with
      | none => ("", "")
      | some p => (p.2.ebay_category_id, subcategoryIdFor p.2 ((List.lookup "subcategory" pd).getD "")) := by
  unfold map_to_category
  rw [best_match_eq_firstArgmax]
  cases h : firstArgmax pt with
  | none => rfl
  | some p =>
    have hnd : (CATEGORY_MAPPINGS.map Prod.fst).Nodup := by decide
    simp only [Option.map_some']
    rw [find?_key_eq hnd (firstArgmax_mem h)]

/-- C2 (counterexample): on the metadata map containing only
`product_type = "Monocrystalline Solar Panel"`, the category mapper does NOT
return subcategory id `"11701"`: the subcategory loop reads only the
(absent) `subcategory` field, so the subcategory id stays empty. -/
theorem C2_monocrystalline_counterexample :
    map_to_category "Monocrystalline Solar Panel"
        [("product_type", "Monocrystalline Solar Panel")] ≠ ("11700", "11701") := by
  decide

/-- C2 (amended): on the metadata map containing only
`product_type = "Monocrystalline Solar Panel"`, the category mapper returns
`category_id = "11700"` and `subcategory_id = ""`. -/
theorem C2_monocrystalline_amended :
    map_to_category "Monocrystalline Solar Panel"
        [("product_type", "Monocrystalline Solar Panel")] = ("11700", "") := by
  decide

/-! ## Dict primitives (Python dict modelled as insertion-ordered assoc list) -/

/-- Python `d.get(k)`: value of the first (unique) entry with key `k`. -/
def getKey {β : Type} : List (String × β) → String → Option β
  | [], _ => none
  | (k0, v) :: rest, k => if k0 = k then some v else getKey rest k

/-- Python `d[k] += w` if `k in d` else `d[k] = w`: add to the existing
entry in place, or append a fresh entry at the end (dict insertion order). -/
def addVote (votes : List (String × ℚ)) (k : String) (w : ℚ) : List (String × ℚ) :=
  match votes with
  | [] => [(k, w)]
  | (k0, w0) :: rest =>
    if k0 = k then (k0, w0 + w) :: rest else (k0, w0) :: addVote rest k w

/-- Python `max(xs, key=g)` for the non-empty list `x :: xs`: the first
element attaining the maximal `g`-value (`max` keeps the incumbent on ties). -/
def pyMax (g : α → ℚ) (x : α) (xs : List α) : α :=
  xs.foldl (fun best p => if g p > g best then p else best) x

/-- Python `max(d, key=d.get)` over a vote dict; the `[]` case is the branch
on which CPython would raise `ValueError` (never reached from a non-empty
result list). -/
def dictMax (votes : List (String × ℚ)) : String × ℚ :=
  match votes with
  | [] => ("", 0)
  | v :: vs => pyMax Prod.snd v vs

/-- Python `max(d.values())`; the `[]` case is the unreachable
`ValueError` branch. -/
def listMax (l : List ℚ) : ℚ :=
  match l with
  | [] => 0
  | v :: vs => pyMax id v vs

/-! ## Analysis results and consensus (`MultiLLMAnalyzer._build_consensus`) -/

/-- Shallow embedding of the `AnalysisResult` dataclass. The nested metadata
dict is modelled as a flat association list: its content is opaque to the
consensus logic, which only ever copies it wholesale. -/
structure AnalysisResult where
  model_name : String
  confidence : ℚ
  product_type : String
  category_id : String
  subcategory : String
  metadata : List (String × String)
  raw_response : String
  processing_time : ℚ
deriving DecidableEq, Repr

/-- Shallow embedding of the `ConsensusResult` dataclass. -/
structure ConsensusResult where
  product_type : String
  category_id : String
  subcategory : String
  confidence : ℚ
  metadata : List (String × String)
  individual_results : List AnalysisResult
  consensus_method : String
deriving DecidableEq, Repr

/-- Shallow embedding of `MultiLLMAnalyzer._build_consensus(results)`.
`none` models the `ValueError` CPython raises on the empty list (the method
is only ever called with a non-empty list). The single-result branch passes
the result through; the multi-result branch normalises confidences by their
sum (1 when the sum is zero), accumulates the normalised weight per distinct
`product_type` and per distinct `category_id`, picks each winner by maximal
accumulated weight (first-come on ties, as CPython `max` does), takes the
confidence as the maximal accumulated product-type weight, and copies
subcategory and metadata from the highest-raw-confidence result. -/
def build_consensus : List AnalysisResult → Option ConsensusResult
  | [] => none
  | [r] =>
    some { product_type := r.product_type, category_id := r.category_id,
           subcategory := r.subcategory, confidence := r.confidence,
           metadata := r.metadata, individual_results := [r],
           consensus_method := "single_model" }
  | r0 :: r1 :: rs =>
    let results := r0 :: r1 :: rs
    let totalRaw : ℚ := (results.map (fun r => r.confidence)).sum
    let total_weight : ℚ := if totalRaw = 0 then 1 else totalRaw
    let product_type_votes :=
      results.foldl (fun v r => addVote v r.product_type (r.confidence / total_weight)) []
    let category_votes :=
      results.foldl (fun v r => addVote v r.category_id (r.confidence / total_weight)) []
    let best_result := pyMax (fun r => r.confidence) r0 (r1 :: rs)
    some { product_type := (dictMax product_type_votes).1,
           category_id := (dictMax category_votes).1,
           subcategory := best_result.subcategory,
           confidence := listMax (product_type_votes.map Prod.snd),
           metadata := best_result.metadata,
           individual_results := results,
           consensus_method := "weighted_voting" }

/-! ## Spec-level description of the multi-result consensus -/

/-- Spec-worded normalisation total: the sum of all confidences, treated as 1
when that sum is zero. -/
def specTotalWeight (results : List AnalysisResult) : ℚ :=
  if (results.map (fun r => r.confidence)).sum = 0 then 1
  else (results.map (fun r => r.confidence)).sum

/-- Spec-worded accumulated weight of the value `v` under the field `f`: the
sum of the normalised confidences of the results carrying that value. -/
def accumulatedWeight (results : List AnalysisResult) (f : AnalysisResult → String) (v : String) : ℚ :=
  ((results.filter (fun r => f r == v)).map
    (fun r => r.confidence / specTotalWeight results)).sum

/-! ## Lemmas about `pyMax`, `addVote` and vote accumulation -/

theorem pyMax_mem (g : α → ℚ) (x : α) (xs : List α) : pyMax g x xs ∈ x :: xs := by
  induction xs generalizing x with
  | nil => simp [pyMax]
  | cons y ys ih =>
    simp only [pyMax, List.foldl_cons]
    have h := ih (if g y > g x then y else x)
    simp only [pyMax] at h
    rcases List.mem_cons.mp h with h' | h'
    · rw [h']
      by_cases hc : g y > g x
      · simp [hc]
      · simp [hc]
    · exact List.mem_cons_of_mem _ (List.mem_cons_of_mem _ h')

theorem pyMax_ge (g : α → ℚ) (x : α) (xs : List α) :
    ∀ y ∈ x :: xs, g y ≤ g (pyMax g x xs) := by
  induction xs generalizing x with
  | nil =>
    intro y hy
    rcases List.mem_cons.mp hy with h | h
    · rw [h]; simp [pyMax]
    · cases h
  | cons z zs ih =>
    intro y hy
    simp only [pyMax, List.foldl_cons]
    have hx : g x ≤ g (if g z > g x then z else x) := by
      by_cases h : g z > g x
      · rw [if_pos h]; exact le_of_lt h
      · rw [if_neg h]
    have hz : g z ≤ g (if g z > g x then z else x) := by
      by_cases h : g z > g x
      · rw [if_pos h]
      · rw [if_neg h]; exact le_of_not_lt h
    have ihall := ih (if g z > g x then z else x)
    simp only [pyMax] at ihall
    have hx' : g (if g z > g x then z else x)
        ≤ g (List.foldl (fun best p => if g p > g best then p else best)
              (if g z > g x then z else x) zs) :=
      ihall _ (List.mem_cons_self _ _)
    rcases List.mem_cons.mp hy with h | h
    · rw [h]; exact le_trans hx hx'
    · rcases List.mem_cons.mp h with h2 | h2
      · rw [h2]; exact le_trans hz hx'
      · exact ihall y (List.mem_cons_of_mem _ h2)

theorem pyMax_map (g : α → ℚ) (x : α) (xs : List α) :
    pyMax id (g x) (xs.map g) = g (pyMax g x xs) := by
  induction xs generalizing x with
  | nil => simp [pyMax]
  | cons y ys ih =>
    simp only [pyMax, List.map_cons, List.foldl_cons, id_eq]
    have hstep : (if g y > g x then g y else g x) = g (if g y > g x then y else x) := by
      by_cases h : g y > g x
      · rw [if_pos h, if_pos h]
      · rw [if_neg h, if_neg h]
    rw [hstep]
    have := ih (if g y > g x then y else x)
    simpa [pyMax] using this

theorem addVote_ne_nil (votes : List (String × ℚ)) (k : String) (w : ℚ) :
    addVote votes k w ≠ [] := by
  cases votes with
  | nil => simp [addVote]
  | cons p rest =>
    obtain ⟨k0, w0⟩ := p
    by_cases h : k0 = k <;> simp [addVote, h]

/-- Keys of `addVote`: unchanged when the key is present, appended otherwise. -/
theorem keys_addVote (votes : List (String × ℚ)) (k : String) (w : ℚ) :
    (addVote votes k w).map Prod.fst =
      if k ∈ votes.map Prod.fst then votes.map Prod.fst
      else votes.map Prod.fst ++ [k] := by
  induction votes with
  | nil => simp [addVote]
  | cons p rest ih =>
    obtain ⟨k0, w0⟩ := p
    by_cases h : k0 = k
    · subst h
      simp [addVote]
    · have hne : ¬ k = k0 := fun he => h he.symm
      by_cases h2 : k ∈ rest.map Prod.fst
      · simp [addVote, h, h2, ih, hne]
      · simp [addVote, h, h2, ih, hne]

/-- Value read from an `addVote` result. -/
theorem getKey_addVote (votes : List (String × ℚ)) (k : String) (w : ℚ) (x : String) :
    getKey (addVote votes k w) x =
      if x = k then some ((getKey votes x).getD 0 + w) else getKey votes x := by
  induction votes with
  | nil =>
    by_cases h : x = k
    · subst h; simp [addVote, getKey]
    · have h2 : ¬ k = x := fun he => h he.symm
      simp [addVote, getKey, h, h2]
  | cons p rest ih =>
    obtain ⟨k0, w0⟩ := p
    by_cases h0 : k0 = k
    · subst h0
      by_cases hx : x = k0
      · subst hx
        simp [addVote, getKey]
      · have h2 : ¬ k0 = x := fun he => hx he.symm
        simp [addVote, getKey, hx, h2]
    · by_cases hx : k0 = x
      · subst hx
        simp [addVote, getKey, h0]
      · simp [addVote, getKey, h0, hx, ih]

/-- Distinct keys are preserved by `addVote`. -/
theorem nodup_keys_addVote (votes : List (String × ℚ)) (k : String) (w : ℚ)
    (h : (votes.map Prod.fst).Nodup) : ((addVote votes k w).map Prod.fst).Nodup := by
  rw [keys_addVote]
  by_cases hk : k ∈ votes.map Prod.fst
  · rwa [if_pos hk]
  · rw [if_neg hk]
    rw [List.nodup_append]
    exact ⟨h, List.nodup_singleton k, by simpa using hk⟩

/-- Reading a member's key from a distinct-key dict yields its value. -/
theorem getKey_eq_of_mem {β : Type} {l : List (String × β)}
    (hnd : (l.map Prod.fst).Nodup) {p : String × β} (hp : p ∈ l) :
    getKey l p.1 = some p.2 := by
  induction l with
  | nil => cases hp
  | cons a as ih =>
    rcases List.mem_cons.mp hp with h | h
    · subst h
      simp [getKey]
    · have hne : a.1 ≠ p.1 := by
        intro he
        have : p.1 ∈ as.map Prod.fst := List.mem_map_of_mem Prod.fst h
        rw [← he] at this
        exact (List.nodup_cons.mp hnd).1 this
      simp only [getKey, if_neg hne]
      exact ih (List.nodup_cons.mp hnd).2 h

/-- Accumulated value over the whole vote-collection fold. -/
theorem getKey_foldl_addVote (f : AnalysisResult → String) (w : AnalysisResult → ℚ)
    (rs : List AnalysisResult) :
    ∀ (init : List (String × ℚ)) (x : String),
      (getKey (rs.foldl (fun v r => addVote v (f r) (w r)) init) x).getD 0
        = (getKey init x).getD 0 + ((rs.filter (fun r => f r == x)).map w).sum := by
  induction rs with
  | nil => intro init x; simp
  | cons r rs ih =>
    intro init x
    rw [List.foldl_cons, ih, getKey_addVote]
    by_cases h : x = f r
    · have hb : (f r == x) = true := beq_iff_eq.mpr h.symm
      have hf : List.filter (fun r => f r == x) (r :: rs)
          = r :: List.filter (fun r => f r == x) rs := by
        simp [List.filter_cons, hb]
      rw [if_pos h, hf]
      simp only [List.map_cons, List.sum_cons, Option.getD_some]
      ring
    · have hb : (f r == x) = false := beq_eq_false_iff_ne.mpr (fun he => h he.symm)
      have hf : List.filter (fun r => f r == x) (r :: rs)
          = List.filter (fun r => f r == x) rs := by
        simp [List.filter_cons, hb]
      rw [if_neg h, hf]

/-- Keys appearing after the whole vote-collection fold. -/
theorem mem_keys_foldl_addVote (f : AnalysisResult → String) (w : AnalysisResult → ℚ)
    (rs : List AnalysisResult) :
    ∀ (init : List (String × ℚ)) (x : String),
      (x ∈ (rs.foldl (fun v r => addVote v (f r) (w r)) init).map Prod.fst
        ↔ x ∈ init.map Prod.fst ∨ ∃ r ∈ rs, f r = x) := by
  induction rs with
  | nil => intro init x; simp
  | cons r rs ih =>
    intro init x
    rw [List.foldl_cons, ih]
    have hadd : x ∈ (addVote init (f r) (w r)).map Prod.fst
        ↔ x ∈ init.map Prod.fst ∨ f r = x := by
      rw [keys_addVote]
      by_cases h : f r ∈ init.map Prod.fst
      · rw [if_pos h]
        constructor
        · exact fun hx => Or.inl hx
        · rintro (hx | hx)
          · exact hx
          · rwa [← hx]
      · rw [if_neg h]
        simp [eq_comm]
    rw [hadd]
    simp only [List.mem_cons]
    constructor
    · rintro ((hx | hx) | ⟨q, hq, hfq⟩)
      · exact Or.inl hx
      · exact Or.inr ⟨r, Or.inl rfl, hx⟩
      · exact Or.inr ⟨q, Or.inr hq, hfq⟩
    · rintro (hx | ⟨q, (hq | hq), hfq⟩)
      · exact Or.inl (Or.inl hx)
      · subst hq; exact Or.inl (Or.inr hfq)
      · exact Or.inr ⟨q, hq, hfq⟩

/-- Distinct keys after the whole vote-collection fold. -/
theorem nodup_keys_foldl_addVote (f : AnalysisResult → String) (w : AnalysisResult → ℚ)
    (rs : List AnalysisResult) :
    ∀ (init : List (String × ℚ)), (init.map Prod.fst).Nodup →
      (((rs.foldl (fun v r => addVote v (f r) (w r)) init)).map Prod.fst).Nodup := by
  induction rs with
  | nil => intro init h; simpa using h
  | cons r rs ih =>
    intro init h
    rw [List.foldl_cons]
    exact ih _ (nodup_keys_addVote _ _ _ h)

/-- The vote-collection fold over a non-empty result list is non-empty. -/
theorem foldl_addVote_ne_nil (f : AnalysisResult → String) (w : AnalysisResult → ℚ)
    (rs : List AnalysisResult) :
    ∀ (init : List (String × ℚ)), init ≠ [] →
      rs.foldl (fun v r => addVote v (f r) (w r)) init ≠ [] := by
  induction rs with
  | nil => intro init h; simpa using h
  | cons r rs ih =>
    intro init h
    rw [List.foldl_cons]
    exact ih _ (addVote_ne_nil _ _ _)

/-- The Python `max` over the entries of a non-empty vote dict: a member,
maximal in value, and its value is the `max` of the values. -/
theorem dictMax_spec (v : String × ℚ) (vs : List (String × ℚ)) :
    dictMax (v :: vs) ∈ v :: vs ∧ (∀ p ∈ v :: vs, p.2 ≤ (dictMax (v :: vs)).2) ∧
      listMax ((v :: vs).map Prod.snd) = (dictMax (v :: vs)).2 := by
  refine ⟨pyMax_mem _ v vs, fun p hp => pyMax_ge _ v vs p hp, ?_⟩
  simp only [dictMax, listMax, List.map_cons]
  exact pyMax_map Prod.snd v vs

/-! ## Claims C3 and C4 -/

/-- C3: the consensus merger applied to a one-element list `[r]` passes the
result through: product type, category id, subcategory, confidence and
metadata all equal those of `r`, with consensus method `"single_model"`. -/
theorem C3_single_result_pass_through (r : AnalysisResult) :
    build_consensus [r] =
      some { product_type := r.product_type, category_id := r.category_id,
             subcategory := r.subcategory, confidence := r.confidence,
             metadata := r.metadata, individual_results := [r],
             consensus_method := "single_model" } := rfl

/-- C4: on two or more results the consensus merger accumulates, per distinct
product type and per distinct category id, the confidences normalised by
their sum (1 when the sum is zero); the returned product type and category id
each carry a maximal accumulated weight (chosen independently over all the
results' values), the consensus confidence equals the winning product type's
accumulated weight, and the metadata is copied from a result of maximal raw
confidence. -/
theorem C4_weighted_voting_consensus (r0 r1 : AnalysisResult) (rs : List AnalysisResult) :
    ∃ c : ConsensusResult,
      build_consensus (r0 :: r1 :: rs) = some c ∧
      (∃ r, r ∈ (r0 :: r1 :: rs) ∧ r.product_type = c.product_type) ∧
      (∀ r ∈ (r0 :: r1 :: rs),
        accumulatedWeight (r0 :: r1 :: rs) (fun a => a.product_type) r.product_type
          ≤ accumulatedWeight (r0 :: r1 :: rs) (fun a => a.product_type) c.product_type) ∧
      (∀ r ∈ (r0 :: r1 :: rs),
        accumulatedWeight (r0 :: r1 :: rs) (fun a => a.category_id) r.category_id
          ≤ accumulatedWeight (r0 :: r1 :: rs) (fun a => a.category_id) c.category_id) ∧
      c.confidence
        = accumulatedWeight (r0 :: r1 :: rs) (fun a => a.product_type) c.product_type ∧
      (∃ r, r ∈ (r0 :: r1 :: rs) ∧ c.metadata = r.metadata ∧
        ∀ q ∈ (r0 :: r1 :: rs), q.confidence ≤ r.confidence) := by
  classical
  set results := r0 :: r1 :: rs with hres
  -- the two vote dicts (`specTotalWeight` unfolds to the code's inline total)
  set ptv := results.foldl
    (fun v r => addVote v r.product_type (r.confidence / specTotalWeight results)) [] with hptv
  set ctv := results.foldl
    (fun v r => addVote v r.category_id (r.confidence / specTotalWeight results)) [] with hctv
  have hptv_ne : ptv ≠ [] := by
    rw [hptv, hres, List.foldl_cons]
    exact foldl_addVote_ne_nil _ _ _ _ (addVote_ne_nil _ _ _)
  have hctv_ne : ctv ≠ [] := by
    rw [hctv, hres, List.foldl_cons]
    exact foldl_addVote_ne_nil _ _ _ _ (addVote_ne_nil _ _ _)
  have hptv_nd : (ptv.map Prod.fst).Nodup := nodup_keys_foldl_addVote _ _ _ _ (by simp)
  have hctv_nd : (ctv.map Prod.fst).Nodup := nodup_keys_foldl_addVote _ _ _ _ (by simp)
  -- accumulated weight read off the dicts
  have hacc_pt : ∀ x, (getKey ptv x).getD 0
      = accumulatedWeight results (fun a => a.product_type) x := by
    intro x
    rw [hptv, getKey_foldl_addVote]
    simp [getKey, accumulatedWeight]
  have hacc_ct : ∀ x, (getKey ctv x).getD 0
      = accumulatedWeight results (fun a => a.category_id) x := by
    intro x
    rw [hctv, getKey_foldl_addVote]
    simp [getKey, accumulatedWeight]
  -- destructure the non-empty dicts
  obtain ⟨pv, pvs, hpv⟩ : ∃ pv pvs, ptv = pv :: pvs := by
    cases h : ptv with
    | nil => exact absurd h hptv_ne
    | cons a b => exact ⟨a, b, rfl⟩
  obtain ⟨cv, cvs, hcv⟩ : ∃ cv cvs, ctv = cv :: cvs := by
    cases h : ctv with
    | nil => exact absurd h hctv_ne
    | cons a b => exact ⟨a, b, rfl⟩
  -- winner facts
  have hpt_spec := dictMax_spec pv pvs
  have hct_spec := dictMax_spec cv cvs
  rw [← hpv] at hpt_spec
  rw [← hcv] at hct_spec
  -- maximal accumulated weight of a winner, given a member key
  have hmax_pt : ∀ x ∈ ptv.map Prod.fst,
      (getKey ptv x).getD 0 ≤ (getKey ptv (dictMax ptv).1).getD 0 := by
    intro x hx
    obtain ⟨q, hq, hq1⟩ := List.mem_map.mp hx
    have h1 : getKey ptv q.1 = some q.2 := getKey_eq_of_mem hptv_nd hq
    have h2 : getKey ptv (dictMax ptv).1 = some (dictMax ptv).2 :=
      getKey_eq_of_mem hptv_nd hpt_spec.1
    rw [← hq1, h1, h2]
    exact hpt_spec.2.1 q hq
  have hmax_ct : ∀ x ∈ ctv.map Prod.fst,
      (getKey ctv x).getD 0 ≤ (getKey ctv (dictMax ctv).1).getD 0 := by
    intro x hx
    obtain ⟨q, hq, hq1⟩ := List.mem_map.mp hx
    have h1 : getKey ctv q.1 = some q.2 := getKey_eq_of_mem hctv_nd hq
    have h2 : getKey ctv (dictMax ctv).1 = some (dictMax ctv).2 :=
      getKey_eq_of_mem hctv_nd hct_spec.1
    rw [← hq1, h1, h2]
    exact hct_spec.2.1 q hq
  -- key membership for every result's field value
  have hkey_pt : ∀ r ∈ results, r.product_type ∈ ptv.map Prod.fst := by
    intro r hr
    rw [hptv]
    exact (mem_keys_foldl_addVote _ _ _ _ _).mpr (Or.inr ⟨r, hr, rfl⟩)
  have hkey_ct : ∀ r ∈ results, r.category_id ∈ ctv.map Prod.fst := by
    intro r hr
    rw [hctv]
    exact (mem_keys_foldl_addVote _ _ _ _ _).mpr (Or.inr ⟨r, hr, rfl⟩)
  -- assemble
  refine ⟨{ product_type := (dictMax ptv).1,
            category_id := (dictMax ctv).1,
            subcategory := (pyMax (fun r => r.confidence) r0 (r1 :: rs)).subcategory,
            confidence := listMax (ptv.map Prod.snd),
            metadata := (pyMax (fun r => r.confidence) r0 (r1 :: rs)).metadata,
            individual_results := results,
            consensus_method := "weighted_voting" }, rfl, ?_, ?_, ?_, ?_, ?_⟩
  · -- the winning product type is one of the results' product types
    have : (dictMax ptv).1 ∈ ptv.map Prod.fst :=
      List.mem_map_of_mem Prod.fst hpt_spec.1
    rw [hptv] at this
    obtain (h | ⟨r, hr, hfr⟩) := (mem_keys_foldl_addVote _ _ _ _ _).mp this
    · simp at h
    · exact ⟨r, hr, hfr⟩
  · intro r hr
    rw [← hacc_pt, ← hacc_pt]
    exact hmax_pt _ (hkey_pt r hr)
  · intro r hr
    rw [← hacc_ct, ← hacc_ct]
    exact hmax_ct _ (hkey_ct r hr)
  · rw [← hacc_pt]
    have h2 : getKey ptv (dictMax ptv).1 = some (dictMax ptv).2 :=
      getKey_eq_of_mem hptv_nd hpt_spec.1
    rw [h2]
    exact hpt_spec.2.2
  · exact ⟨pyMax (fun r => r.confidence) r0 (r1 :: rs),
      pyMax_mem _ r0 (r1 :: rs), rfl,
      fun q hq => pyMax_ge _ r0 (r1 :: rs) q hq⟩

/-! ## Image variant geometry (`core/image_processor.py`)

Images are modelled by their pixel dimensions plus the paste offsets that
`combine_side_by_side` computes; resampling content is outside the model.
The scale factor `int((max_height / h) * w)` is computed by CPython in
binary floating point; it is modelled here as the exact rational floor
`max_height * w / h`, which agrees except for float-rounding at the last
unit and is irrelevant to the height/offset properties proved below. -/

/-- Width and height of a PIL image. -/
structure PILImage where
  width : Nat
  height : Nat
deriving DecidableEq, Repr

/-- Shallow embedding of `resize_by_height(image, max_height=1600)`: images
taller than `max_height` are scaled down proportionally to that height;
shorter images are returned unchanged. -/
def resize_by_height (img : PILImage) (max_height : Nat := 1600) : PILImage :=
  if img.height > max_height
  then { width := max_height * img.width / img.height, height := max_height }
  else img

/-- Output geometry of `combine_side_by_side`: composite dimensions plus the
top-left paste offsets of the two (resized) inputs. -/
structure Composite where
  img : PILImage
  frontOffset : Nat × Nat
  backOffset : Nat × Nat
deriving DecidableEq, Repr

/-- Shallow embedding of `combine_side_by_side(front, back)`: resize both by
height, take the max height and the sum of widths, paste the front at x = 0
and the back at x = front.width, each vertically centred. -/
def combine_side_by_side (front back : PILImage) : Composite :=
  let f := resize_by_height front
  let b := resize_by_height back
  let height := max f.height b.height
  { img := { width := f.width + b.width, height := height },
    frontOffset := (0, (height - f.height) / 2),
    backOffset := (f.width, (height - b.height) / 2) }

/-- C5 (counterexample): a 100×800 front and a 100×600 back are both at most
1600 tall, so `resize_by_height` returns them unchanged and they do NOT end
up at a common height; the composite is 800 tall and the back is pasted 100
pixels below the top edge (vertical padding), contradicting "scaled to a
common height, concatenated without padding". -/
theorem C5_common_height_counterexample :
    resize_by_height { width := 100, height := 800 } = { width := 100, height := 800 } ∧
    resize_by_height { width := 100, height := 600 } = { width := 100, height := 600 } ∧
    (resize_by_height { width := 100, height := 800 }).height
      ≠ (resize_by_height { width := 100, height := 600 }).height ∧
    combine_side_by_side { width := 100, height := 800 } { width := 100, height := 600 }
      = { img := { width := 200, height := 800 },
          frontOffset := (0, 0), backOffset := (100, 100) } := by
  refine ⟨by decide, by decide, by decide, by decide⟩

/-- C5 (amended): the vision composite is built by scaling each image DOWN
to at most 1600 pixels of height (shorter images are kept as-is), then
concatenating left-right: the composite width is the sum of the two resized
widths, its height is the MAX of the two resized heights, the front is
pasted at x = 0 and the back at x = front.width, and each image is
vertically centred (so the shorter of the two gets vertical padding bars
whenever the resized heights differ). -/
theorem C5_composite_geometry_amended (front back : PILImage) :
    (combine_side_by_side front back).img.width
        = (resize_by_height front).width + (resize_by_height back).width ∧
    (combine_side_by_side front back).img.height
        = max (resize_by_height front).height (resize_by_height back).height ∧
    (resize_by_height front).height = min front.height 1600 ∧
    (resize_by_height back).height = min back.height 1600 ∧
    (combine_side_by_side front back).frontOffset
        = (0, ((combine_side_by_side front back).img.height
                - (resize_by_height front).height) / 2) ∧
    (combine_side_by_side front back).backOffset
        = ((resize_by_height front).width,
           ((combine_side_by_side front back).img.height
                - (resize_by_height back).height) / 2) := by
  have hmin : ∀ img : PILImage, (resize_by_height img).height = min img.height 1600 := by
    intro img
    by_cases h : img.height > 1600
    · rw [resize_by_height, if_pos h]
      show 1600 = min img.height 1600
      omega
    · rw [resize_by_height, if_neg h]
      omega
  exact ⟨rfl, rfl, hmin front, hmin back, rfl, rfl⟩

/-! ## LLM response parsing (`core/vision_handler.get_postcard_metadata`)

The network call, base64 encoding and prompt construction are I/O that
produce the raw response string; the embedding covers the deterministic
response-handling tail: code-fence stripping, `json.loads`, and the
surrounding `try/except` that turns any parse failure into `{}`.

`json.loads` is CPython standard-library behaviour, modelled here for flat
JSON objects with string keys and string values — exactly the shape the
extraction prompt requests; nested objects, arrays, numbers and other JSON
values are outside the model and treated as parse failures. -/

/-- JSON/Python whitespace skipping. -/
def skipWs (cs : List Char) : List Char :=
  cs.dropWhile isPyWs

/-- Body of a JSON string scan: consume up to the closing quote, handling
the common escapes. -/
def parseJStringGo : List Char → List Char → Option (String × List Char)
  | [], _ => none
  | c :: rest, acc =>
    if c = '"' then some (String.mk acc.reverse, rest)
    else if c = '\\' then
      match rest with
      | [] => none
      | e :: rest2 =>
        if e = '"' then parseJStringGo rest2 ('"' :: acc)
        else if e = '\\' then parseJStringGo rest2 ('\\' :: acc)
        else if e = '/' then parseJStringGo rest2 ('/' :: acc)
        else if e = 'n' then parseJStringGo rest2 ('\n' :: acc)
        else if e = 't' then parseJStringGo rest2 ('\t' :: acc)
        else if e = 'r' then parseJStringGo rest2 ('\r' :: acc)
        else none
    else parseJStringGo rest (c :: acc)

/-- Scan a JSON string literal starting at an opening quote. -/
def parseJString (cs : List Char) : Option (String × List Char) :=
  match cs with
  | c :: rest => if c = '"' then parseJStringGo rest [] else none
  | [] => none

/-- Scan the members of a JSON object (after the opening brace, first key
pending); `fuel` bounds the recursion and is always sufficient at the top
call. -/
def parseMembers : Nat → List Char → List (String × String) →
    Option (List (String × String) × List Char)
  | 0, _, _ => none
  | fuel + 1, cs, acc =>
    match parseJString (skipWs cs) with
    | none => none
    | some (key, rest1) =>
      match skipWs rest1 with
      | ':' :: rest3 =>
        match parseJString (skipWs rest3) with
        | none => none
        | some (value, rest4) =>
          match skipWs rest4 with
          | c :: rest6 =>
            if c = ',' then parseMembers fuel rest6 (acc ++ [(key, value)])
            else if c = braceClose then some (acc ++ [(key, value)], rest6)
            else none
          | [] => none
      | _ => none

/-- Model of `json.loads` on the flat-object fragment: a brace-delimited
object of string fields followed only by whitespace; anything else is a
parse failure (`none`). -/
def json_loads (s : String) : Option (List (String × String)) :=
  match skipWs s.data with
  | c :: rest =>
    if c = braceOpen then
      match skipWs rest with
      | d :: rest2 =>
        if d = braceClose then
          if (skipWs rest2).isEmpty then some [] else none
        else
          match parseMembers (s.data.length + 1) (skipWs rest) [] with
          | some (obj, restEnd) => if (skipWs restEnd).isEmpty then some obj else none
          | none => none
      | [] => none
    else none
  | [] => none

/-- The code-fence stripping of `get_postcard_metadata`: strip the raw
response; if it starts with three backticks, take the text between the first
pair of fences, strip it, and drop a leading case-insensitive `json` tag
(four characters) followed by another strip. -/
def strip_fence (content : String) : String :=
  let raw := pyStrip content.data
  if hasPre "```".data raw then
    let raw1 := pyStrip (splitSecondField "```".data raw)
    if hasPre "json".data (raw1.map Char.toLower)
    then String.mk (pyStrip (raw1.drop 4))
    else String.mk raw1
  else String.mk raw

/-- Shallow embedding of the parsing stage of
`get_postcard_metadata`: fence-strip then `json.loads`, with the
surrounding `try/except` mapping any parse failure to the empty dict. -/
def get_postcard_metadata (raw_response : String) : List (String × String) :=
  match json_loads (strip_fence raw_response) with
  | some m => m
  | none => []

/-! ## Claims C6 and C8 -/

/-- C6: every response whose fence-stripped remainder fails to parse as JSON
yields the empty metadata map (no exception escapes); in particular the
response `"not json at all"` yields `{}`, and the fenced response
from the spec's scenario is fence-stripped and parsed to its single field. -/
theorem C6_parse_failure_and_fence_stripping (raw : String)
    (h : json_loads (strip_fence raw) = none) :
    get_postcard_metadata raw = [] ∧
    get_postcard_metadata "not json at all" = [] ∧
    get_postcard_metadata "```json\n\x7b\"Title\": \"X\"\x7d\n```" = [("Title", "X")] := by
  refine ⟨?_, by decide, by decide⟩
  rw [get_postcard_metadata, h]

/-- C6 witness: the theorem instantiated at the concrete non-JSON response. -/
theorem C6_parse_failure_witness :
    get_postcard_metadata "not json at all" = [] ∧
    get_postcard_metadata "not json at all" = [] ∧
    get_postcard_metadata "```json\n\x7b\"Title\": \"X\"\x7d\n```" = [("Title", "X")] :=
  C6_parse_failure_and_fence_stripping "not json at all" (by decide)

/-- C8 (counterexample): the extractor can return a map with NONE of the
claimed minimum keys: on the unparseable response `"totally not json"` it
returns the empty map, which contains neither `product_type` nor any
title/description variant. -/
theorem C8_missing_minimum_keys_counterexample :
    get_postcard_metadata "totally not json" = [] ∧
    getKey (get_postcard_metadata "totally not json") "product_type" = none ∧
    getKey (get_postcard_metadata "totally not json") "title" = none ∧
    getKey (get_postcard_metadata "totally not json") "Title" = none ∧
    getKey (get_postcard_metadata "totally not json") "description" = none ∧
    getKey (get_postcard_metadata "totally not json") "Description" = none := by
  refine ⟨by decide, by decide, by decide, by decide, by decide, by decide⟩

/-- C8 (amended): the extractor guarantees no minimum keys: it returns
either the empty map (on parse failure) or exactly the parsed JSON object,
unchanged — so `product_type`, a title and a description are present only
when the LLM response itself supplies them. -/
theorem C8_no_minimum_key_guarantee_amended (raw : String) :
    get_postcard_metadata raw = [] ∨
    json_loads (strip_fence raw) = some (get_postcard_metadata raw) := by
  rw [get_postcard_metadata]
  cases h : json_loads (strip_fence raw) with
  | none => exact Or.inl rfl
  | some m => exact Or.inr rfl

/-! ## CSV row construction (`core/csv_generator.fill_row`)

The row dict is modelled as an insertion-ordered association list; Python
`row[k] = v` updates the entry in place when `k` is a key and appends a new
entry otherwise. The two date strings (`datetime.today()` and tomorrow's
schedule date) are environment inputs and passed as parameters. The one
integer-valued field (`Quantity` = 1) is modelled by its CSV rendering
`"1"`. `settings.get('custom_html', '').format(**metadata)` raises
`KeyError`/`ValueError` in CPython on missing placeholder keys or stray
braces; the model returns `Except.error` there and `fill_row` propagates it
(the exception escapes `fill_row`, so no row is produced). -/

/-- Python `d[k] = v` on a dict: in-place update or append. -/
def pySet {β : Type} (row : List (String × β)) (k : String) (v : β) : List (String × β) :=
  match row with
  | [] => [(k, v)]
  | (k0, v0) :: rest =>
    if k0 = k then (k0, v) :: rest else (k0, v0) :: pySet rest k v

/-- The dict comprehension `{header: "" for header in headers}`. -/
def init_row (headers : List String) : List (String × String) :=
  headers.foldl (fun row h => pySet row h "") []

/-- Python `metadata.get(k, '')`. -/
def mget (metadata : List (String × String)) (k : String) : String :=
  (getKey metadata k).getD ""

/-- Core of Python `str.format(**metadata)` restricted to simple named
placeholders: `{name}` is replaced by `metadata[name]`, doubled braces
escape themselves, a missing key or an unmatched brace is an error. `fuel`
bounds the recursion and is always sufficient at the top call. -/
def pyFormatGo (metadata : List (String × String)) :
    Nat → List Char → Except String (List Char)
  | 0, _ => .error "fuel exhausted"
  | _ + 1, [] => .ok []
  | fuel + 1, c :: rest =>
    if c = braceOpen then
      match rest with
      | [] => .error "Single brace encountered in format string"
      | c2 :: rest2 =>
        if c2 = braceOpen then
          (pyFormatGo metadata fuel rest2).map (fun t => braceOpen :: t)
        else
          let name := rest.takeWhile (fun d => d != braceClose)
          match rest.dropWhile (fun d => d != braceClose) with
          | [] => .error "expected brace before end of string"
          | _ :: restAfter =>
            match getKey metadata (String.mk name) with
            | some v => (pyFormatGo metadata fuel restAfter).map (fun t => v.data ++ t)
            | none => .error ("KeyError: " ++ String.mk name)
    else if c = braceClose then
      match rest with
      | c2 :: rest2 =>
        if c2 = braceClose then
          (pyFormatGo metadata fuel rest2).map (fun t => braceClose :: t)
        else .error "Single brace encountered in format string"
      | [] => .error "Single brace encountered in format string"
    else (pyFormatGo metadata fuel rest).map (fun t => c :: t)

/-- Python `template.format(**metadata)` (simple named placeholders). -/
def str_format (template : String) (metadata : List (String × String)) :
    Except String String :=
  (pyFormatGo metadata (template.data.length + 1) template.data).map String.mk

/-- The sequence of `row[...] = ...` assignments `fill_row` performs, in
source order, as (column, value) pairs; `custom` is the already-formatted
custom-HTML tail of the description. -/
def row_assignments (metadata : List (String × String))
    (front_url back_url combined_url folder_label : String)
    (settings : List (String × String)) (today tomorrow : String)
    (custom : String) : List (String × String) :=
  [ ("*Action(SiteID=US|Country=US|Currency=USD|Version=1193)", "Add"),
    ("Custom label (SKU)", folder_label ++ " - " ++ today),
    ("Title", mget metadata "Title"),
    ("Schedule Time", tomorrow ++ " 18:00:00"),
    ("Item photo URL", front_url ++ "|" ++ back_url ++ "|" ++ combined_url
      ++ "|https://pcc-ebay-photos.s3.us-east-1.amazonaws.com/PCC-banner.png"),
    ("Category ID", "262042"),
    ("Condition ID", "3000-Used"),
    ("Category name", "/Collectibles/Postcards & Supplies/Postcards/Topographical Postcards"),
    ("Start price", "8.99"),
    ("Quantity", "1"),
    ("Format", "FixedPrice"),
    ("Duration", "GTC"),
    ("Best Offer Enabled", "1"),
    ("Location", mget settings "zip_code"),
    ("Shipping profile name", mget settings "shipping_policy"),
    ("Return profile name", mget settings "return_policy"),
    ("Payment profile name", mget settings "payment_policy"),
    ("C:Unit of Sale", "Single Unit"),
    ("C:Region", mget metadata "Region"),
    ("C:City", mget metadata "City"),
    ("C:Subject", mget metadata "Subject"),
    ("C:Country", mget metadata "Country"),
    ("C:Country/Region of Manufacture", ""),
    ("C:Original/Licensed Reprint", "Original"),
    ("C:Theme", mget metadata "Theme"),
    ("C:Type", mget metadata "Type"),
    ("C:Posted Condition", mget metadata "Posted Condition"),
    ("C:Era", mget metadata "Era"),
    ("Store category", "4231764019"),
    ("Description",
      "<h1>" ++ mget metadata "Title"
        ++ "</h1><br><p>You will receive the exact postcard in the scans. Please view the scans and message me if you have any questions because I can usually respond within minutes.</p><br>"
        ++ mget metadata "Description" ++ custom) ]

/-- The column names `fill_row` assigns (static, in source order). -/
def assignedKeys : List String :=
  (row_assignments [] "" "" "" "" [] "" "" "").map Prod.fst

/-- Shallow embedding of `fill_row(headers, metadata, front_url, back_url,
combined_url, folder_label, settings)`: initialise every template column to
`""`, then perform the assignments in source order; the custom-HTML
placeholder substitution may raise, which aborts the row. -/
def fill_row (headers : List String) (metadata : List (String × String))
    (front_url back_url combined_url folder_label : String)
    (settings : List (String × String)) (today tomorrow : String) :
    Except String (List (String × String)) :=
  match str_format (mget settings "custom_html") metadata with
  | .error e => .error e
  | .ok custom =>
    .ok ((row_assignments metadata front_url back_url combined_url folder_label
            settings today tomorrow custom).foldl
          (fun row p => pySet row p.1 p.2) (init_row headers))

/-! ## Lemmas about `pySet`, `init_row` and the assignment fold -/

theorem pySet_of_not_mem {β : Type} (row : List (String × β)) (k : String) (v : β)
    (h : k ∉ row.map Prod.fst) : pySet row k v = row ++ [(k, v)] := by
  induction row with
  | nil => simp [pySet]
  | cons p rest ih =>
    obtain ⟨k0, v0⟩ := p
    have h0 : k0 ≠ k := by
      intro he; exact h (by simp [he])
    have h1 : k ∉ rest.map Prod.fst := by
      intro hm; exact h (by simp [hm])
    simp [pySet, h0, ih h1]

theorem keys_pySet {β : Type} (row : List (String × β)) (k : String) (v : β) :
    (pySet row k v).map Prod.fst =
      if k ∈ row.map Prod.fst then row.map Prod.fst else row.map Prod.fst ++ [k] := by
  induction row with
  | nil => simp [pySet]
  | cons p rest ih =>
    obtain ⟨k0, v0⟩ := p
    by_cases h : k0 = k
    · subst h
      simp [pySet]
    · have hne : ¬ k = k0 := fun he => h he.symm
      by_cases h2 : k ∈ rest.map Prod.fst
      · simp [pySet, h, h2, ih, hne]
      · simp [pySet, h, h2, ih, hne]

theorem getKey_pySet_ne {β : Type} (row : List (String × β)) (k : String) (v : β)
    (x : String) (h : x ≠ k) : getKey (pySet row k v) x = getKey row x := by
  induction row with
  | nil =>
    have h2 : ¬ k = x := fun he => h he.symm
    simp [pySet, getKey, h2]
  | cons p rest ih =>
    obtain ⟨k0, v0⟩ := p
    by_cases h0 : k0 = k
    · subst h0
      have h2 : ¬ k0 = x := fun he => h he.symm
      simp [pySet, getKey, h2]
    · by_cases hx : k0 = x
      · subst hx
        simp [pySet, getKey, h0]
      · simp [pySet, getKey, h0, hx, ih]

theorem keys_foldl_pySet {β : Type} (asgs : List (String × β)) :
    ∀ (row : List (String × β)), (∀ p ∈ asgs, p.1 ∈ row.map Prod.fst) →
      ((asgs.foldl (fun r p => pySet r p.1 p.2) row).map Prod.fst) = row.map Prod.fst := by
  induction asgs with
  | nil => intro row _; rfl
  | cons a asgs ih =>
    intro row hmem
    rw [List.foldl_cons]
    have hkeys : (pySet row a.1 a.2).map Prod.fst = row.map Prod.fst := by
      rw [keys_pySet, if_pos (hmem a (List.mem_cons_self a asgs))]
    rw [ih (pySet row a.1 a.2) (fun p hp => by rw [hkeys]; exact hmem p (List.mem_cons_of_mem a hp)), hkeys]

theorem getKey_foldl_pySet_ne {β : Type} (asgs : List (String × β)) :
    ∀ (row : List (String × β)) (x : String), x ∉ asgs.map Prod.fst →
      getKey (asgs.foldl (fun r p => pySet r p.1 p.2) row) x = getKey row x := by
  induction asgs with
  | nil => intro row x _; rfl
  | cons a asgs ih =>
    intro row x hx
    rw [List.foldl_cons, ih _ _ (fun hm => hx (by simp [hm])),
      getKey_pySet_ne _ _ _ _ (fun he => hx (by simp [he]))]

theorem init_row_general :
    ∀ (hs L : List String), (L ++ hs).Nodup →
      hs.foldl (fun r k => pySet r k "") (L.map (fun s => (s, ""))) =
        (L ++ hs).map (fun s => (s, "")) := by
  intro hs
  induction hs with
  | nil => intro L _; simp
  | cons h hs ih =>
    intro L hnd
    rw [List.foldl_cons]
    have hnotmem : h ∉ L := by
      intro hm
      have : ¬ (L ++ h :: hs).Nodup := by
        intro hh
        have hdis := (List.nodup_append.mp hh).2.2
        exact hdis hm (List.mem_cons_self h hs)
      exact this hnd
    have hkeys : h ∉ (L.map (fun s => (s, ""))).map Prod.fst := by
      intro hm
      apply hnotmem
      simpa using hm
    rw [pySet_of_not_mem _ _ _ hkeys]
    have happ : L.map (fun s => (s, "")) ++ [(h, "")] = (L ++ [h]).map (fun s => (s, "")) := by
      simp
    rw [happ, ih (L ++ [h]) (by simpa using hnd)]
    simp

/-- The dict comprehension over distinct headers initialises exactly the
header columns, in order, to the empty string. -/
theorem init_row_eq (headers : List String) (h : headers.Nodup) :
    init_row headers = headers.map (fun s => (s, "")) := by
  have := init_row_general headers [] (by simpa using h)
  simpa [init_row] using this

theorem getKey_map_empty :
    ∀ (hs : List String) (x : String), x ∈ hs →
      getKey (hs.map (fun s => (s, ""))) x = some "" := by
  intro hs
  induction hs with
  | nil => intro x hx; cases hx
  | cons h hs ih =>
    intro x hx
    by_cases he : h = x
    · simp [getKey, he]
    · rcases List.mem_cons.mp hx with h1 | h1
      · exact absurd h1.symm he
      · simp only [List.map_cons, getKey, if_neg he]
        exact ih x h1

/-! ## Claims C7 and C9 -/

/-- C7 (counterexample): on a template header consisting of the single
column `Title`, the row's keys are NOT exactly the header — every statically
assigned column is appended after it (`row[k] = v` inserts keys missing from
the header), so the claim fails for header lists that do not already contain
all assigned columns. -/
theorem C7_extra_columns_counterexample :
    Except.map (List.map Prod.fst)
        (fill_row ["Title"] [] "f" "b" "c" "L" [] "d1" "d2")
      = Except.ok ("Title" :: assignedKeys.erase "Title") ∧
    ("Title" :: assignedKeys.erase "Title") ≠ ["Title"] := by
  refine ⟨by rfl, by decide⟩

/-- C7 (amended): whenever the template header (with distinct columns)
contains every column `fill_row` assigns, and the custom-HTML substitution
succeeds, the emitted row's keys are exactly the template header's columns
in the same order, regardless of which optional metadata fields are present,
and every header column not explicitly assigned keeps its empty-string
default. -/
theorem C7_row_keys_match_template_amended (headers : List String)
    (metadata : List (String × String))
    (front_url back_url combined_url folder_label : String)
    (settings : List (String × String)) (today tomorrow : String)
    (hnd : headers.Nodup) (hsub : ∀ k ∈ assignedKeys, k ∈ headers)
    (hfmt : ∃ s, str_format (mget settings "custom_html") metadata = .ok s) :
    Except.map (List.map Prod.fst)
        (fill_row headers metadata front_url back_url combined_url folder_label
          settings today tomorrow)
      = Except.ok headers ∧
    (∀ h ∈ headers, h ∉ assignedKeys →
      Except.map (fun row => getKey row h)
          (fill_row headers metadata front_url back_url combined_url folder_label
            settings today tomorrow)
        = Except.ok (some "")) := by
  obtain ⟨s, hs⟩ := hfmt
  have hkeys_eq : (row_assignments metadata front_url back_url combined_url folder_label
      settings today tomorrow s).map Prod.fst = assignedKeys := rfl
  constructor
  · rw [fill_row, hs]
    simp only [Except.map]
    rw [keys_foldl_pySet, init_row_eq headers hnd]
    · have hcomp : (Prod.fst ∘ fun s : String => (s, "")) = id := by
        funext t; rfl
      rw [List.map_map, hcomp, List.map_id]
    · intro p hp
      rw [init_row_eq headers hnd]
      have : p.1 ∈ assignedKeys := by
        rw [← hkeys_eq]
        exact List.mem_map_of_mem Prod.fst hp
      simpa using hsub p.1 this
  · intro h hh hnot
    rw [fill_row, hs]
    simp only [Except.map]
    rw [getKey_foldl_pySet_ne, init_row_eq headers hnd, getKey_map_empty headers h hh]
    rw [hkeys_eq]
    exact hnot

/-- C7 witness: with the header being exactly the assigned columns, empty
metadata and settings, the row's keys come out equal to the header. -/
theorem C7_row_keys_witness :
    Except.map (List.map Prod.fst)
        (fill_row assignedKeys [] "f" "b" "c" "L" [] "d1" "d2")
      = Except.ok assignedKeys :=
  (C7_row_keys_match_template_amended assignedKeys [] "f" "b" "c" "L" [] "d1" "d2"
    (by decide) (fun k hk => hk) ⟨"", by rfl⟩).1

/-- C9: a settings map whose `custom_html` template names a placeholder
absent from the metadata makes the description substitution raise a
`KeyError`, so `fill_row` produces no row: witnessed by the template
consisting of the single placeholder `Missing` against empty metadata. -/
theorem C9_missing_placeholder_raises :
    fill_row ["Title"] [] "f" "b" "c" "L"
        [("custom_html", "\x7bMissing\x7d")] "d1" "d2"
      = Except.error "KeyError: Missing" := by
  rfl

/-! ## Client initialisation and `MultiLLMAnalyzer.analyze_product`

The OpenAI network call is I/O; its outcome is passed in as an oracle
parameter: `some r` when `_analyze_with_openai` returns a result, `none`
when it returns `None` (its `except` branch). -/

/-- Shallow embedding of `_init_clients`: the OpenAI client is constructed
exactly when `config.get("openai_api_key")` is truthy (present and
non-empty). Claude and Gemini initialisation is commented out in the
source, so no other client ever exists. -/
def init_clients (config : List (String × String)) : Bool :=
  match getKey config "openai_api_key" with
  | some k => k != ""
  | none => false

/-- Shallow embedding of `analyze_product`: run the OpenAI analysis when the
client exists, collect the (at most one) result, build the consensus from a
non-empty result list, and raise `"No LLM clients available for analysis"`
otherwise. The inner `none` branch of `build_consensus` is unreachable for
a non-empty list. -/
def analyze_product (config : List (String × String))
    (openai_outcome : Option AnalysisResult) : Except String ConsensusResult :=
  let results : List AnalysisResult :=
    if init_clients config then
      match openai_outcome with
      | some r => [r]
      | none => []
    else []
  match results with
  | [] => .error "No LLM clients available for analysis"
  | r :: rs =>
    match build_consensus (r :: rs) with
    | some c => .ok c
    | none => .error "No LLM clients available for analysis"

/-- C10: with no `openai_api_key` in the configuration no client is
initialised and `analyze_product` raises
`"No LLM clients available for analysis"` whatever the (never-attempted)
analysis outcome would have been; and whenever the single OpenAI attempt
yields no result, it raises the same exception for every configuration,
instead of returning a consensus or an empty result. -/
theorem C10_no_clients_raises (config : List (String × String))
    (hkey : getKey config "openai_api_key" = none) :
    (∀ o : Option AnalysisResult,
      analyze_product config o = .error "No LLM clients available for analysis") ∧
    (∀ cfg : List (String × String),
      analyze_product cfg none = .error "No LLM clients available for analysis") := by
  constructor
  · intro o
    have hcl : init_clients config = false := by
      rw [init_clients, hkey]
    rw [analyze_product.eq_def, hcl]
    rfl
  · intro cfg
    rw [analyze_product.eq_def]
    by_cases h : init_clients cfg
    · rw [h]; rfl
    · rw [eq_false_of_ne_true h]; rfl

/-- C10 witness: the empty configuration with a failed analysis attempt. -/
theorem C10_no_clients_witness :
    analyze_product [] none = .error "No LLM clients available for analysis" :=
  (C10_no_clients_raises [] rfl).1 none

end PostcardLister
